import Mathlib

/-!
Verification development for the LogNog In agent
(`src/agent/src/lognog_in/`): a shallow embedding of the durable event
buffer (`buffer.py`), the HTTP shipper (`shipper.py`), the log-file
tailer (`watcher.py`), the file-integrity monitor (`fim.py`) and the
supervisor's pause gate (`agent.py`), together with theorems settling
the frozen claims about them.

Modelling conventions:
- SQLite rows are lists of records kept in rowid (insertion) order;
  `AUTOINCREMENT` is a strictly increasing `nextId` counter.
- `ORDER BY created_at` compares the ISO-8601 TEXT column
  lexicographically over its characters (`lexLe`), with ties resolved
  in rowid order, which the covering index `idx_events_created` yields;
  this is a stable sort of the rowid-ordered rows.
- Wall-clock readings (`datetime.utcnow().isoformat()`), file contents,
  hash results and HTTP outcomes are inputs of the modelled functions:
  the environment supplies them.
- File contents are `List Char`; offsets count characters.  I/O errors
  and thread interleavings are not modelled; each handler call runs
  under the source's per-object lock and is modelled atomically.
-/

namespace LogNog

/-- Lexicographic comparison of character lists by code point, the
order SQLite uses for TEXT columns (memcmp on the encoded bytes;
identical to code-point order on ASCII timestamps). -/
def lexLe : List Char → List Char → Bool
  | [], _ => true
  | _ :: _, [] => false
  | a :: as, b :: bs =>
    if a.val < b.val then true
    else if b.val < a.val then false
    else lexLe as bs

/-- Buffered event: one row of the `events` table created in
`EventBuffer._init_db` (columns id, event_type, data, created_at,
attempts). -/
structure BufEntry where
  id : Nat
  eventType : String
  data : String
  createdAt : String
  attempts : Nat
deriving Repr, DecidableEq

/-- State of `EventBuffer`: the rows in rowid (insertion) order plus
the strictly increasing AUTOINCREMENT counter. -/
structure Buffer where
  rows : List BufEntry
  nextId : Nat
deriving Repr, DecidableEq

/-- Empty buffer, as created by `EventBuffer._init_db` on a fresh
database (AUTOINCREMENT starts at 1). -/
def Buffer.empty : Buffer := ⟨[], 1⟩

/-- Model of `EventBuffer.add_log_event`: INSERT one `"log"` row; the
wall-clock reading `createdAt` is supplied by the environment.  Returns
the new state and `cursor.lastrowid`. -/
def addLogEvent (b : Buffer) (data createdAt : String) : Buffer × Nat :=
  (⟨b.rows ++ [⟨b.nextId, "log", data, createdAt, 0⟩], b.nextId + 1⟩, b.nextId)

/-- Model of `EventBuffer.add_fim_event`: INSERT one `"fim"` row. -/
def addFimEvent (b : Buffer) (data createdAt : String) : Buffer × Nat :=
  (⟨b.rows ++ [⟨b.nextId, "fim", data, createdAt, 0⟩], b.nextId + 1⟩, b.nextId)

/-- Row order used by `EventBuffer.get_batch`'s `ORDER BY created_at
ASC`. -/
def createdLe (e1 e2 : BufEntry) : Prop :=
  lexLe e1.createdAt.data e2.createdAt.data = true

instance : DecidableRel createdLe := fun e1 e2 => by
  unfold createdLe; infer_instance

instance : IsTotal BufEntry createdLe := by
  constructor
  suffices htot : ∀ (l1 l2 : List Char),
      lexLe l1 l2 = true ∨ lexLe l2 l1 = true by
    intro a b
    exact htot a.createdAt.data b.createdAt.data
  intro l1
  induction l1 with
  | nil =>
    intro l2
    left
    rfl
  | cons x xs ih =>
    intro l2
    cases l2 with
    | nil =>
      right
      rfl
    | cons y ys =>
      by_cases h1 : x.val < y.val
      · left
        simp [lexLe, h1]
      · by_cases h2 : y.val < x.val
        · right
          simp [lexLe, h2]
        · cases ih ys with
          | inl h =>
            left
            simp [lexLe, h1, h2, h]
          | inr h =>
            right
            simp [lexLe, h1, h2, h]

instance : IsTrans BufEntry createdLe := by
  constructor
  suffices htr : ∀ (l1 l2 l3 : List Char), lexLe l1 l2 = true →
      lexLe l2 l3 = true → lexLe l1 l3 = true by
    intro a b c hab hbc
    exact htr a.createdAt.data b.createdAt.data c.createdAt.data hab hbc
  intro l1
  induction l1 with
  | nil =>
    intro l2 l3 _ _
    rfl
  | cons x xs ih =>
    intro l2 l3 hab hbc
    cases l2 with
    | nil => simp [lexLe] at hab
    | cons y ys =>
      cases l3 with
      | nil => simp [lexLe] at hbc
      | cons z zs =>
        simp only [lexLe] at hab hbc ⊢
        by_cases h1 : x.val < y.val
        · have h1n : x.val.toBitVec.toNat < y.val.toBitVec.toNat := h1
          by_cases h2 : y.val < z.val
          · have h2n : y.val.toBitVec.toNat < z.val.toBitVec.toNat := h2
            have hxz : x.val < z.val := by
              show x.val.toBitVec.toNat < z.val.toBitVec.toNat
              omega
            rw [if_pos hxz]
          · by_cases h3 : z.val < y.val
            · rw [if_neg h2, if_pos h3] at hbc
              simp at hbc
            · have h2n : ¬ y.val.toBitVec.toNat < z.val.toBitVec.toNat := h2
              have h3n : ¬ z.val.toBitVec.toNat < y.val.toBitVec.toNat := h3
              have hxz : x.val < z.val := by
                show x.val.toBitVec.toNat < z.val.toBitVec.toNat
                omega
              rw [if_pos hxz]
        · by_cases h4 : y.val < x.val
          · rw [if_neg h1, if_pos h4] at hab
            simp at hab
          · have h1n : ¬ x.val.toBitVec.toNat < y.val.toBitVec.toNat := h1
            have h4n : ¬ y.val.toBitVec.toNat < x.val.toBitVec.toNat := h4
            rw [if_neg h1, if_neg h4] at hab
            by_cases h2 : y.val < z.val
            · have h2n : y.val.toBitVec.toNat < z.val.toBitVec.toNat := h2
              have hxz : x.val < z.val := by
                show x.val.toBitVec.toNat < z.val.toBitVec.toNat
                omega
              rw [if_pos hxz]
            · by_cases h3 : z.val < y.val
              · rw [if_neg h2, if_pos h3] at hbc
                simp at hbc
              · have h2n : ¬ y.val.toBitVec.toNat < z.val.toBitVec.toNat := h2
                have h3n : ¬ z.val.toBitVec.toNat < y.val.toBitVec.toNat := h3
                rw [if_neg h2, if_neg h3] at hbc
                have hxz1 : ¬ x.val < z.val := by
                  show ¬ x.val.toBitVec.toNat < z.val.toBitVec.toNat
                  omega
                have hxz2 : ¬ z.val < x.val := by
                  show ¬ z.val.toBitVec.toNat < x.val.toBitVec.toNat
                  omega
                rw [if_neg hxz1, if_neg hxz2]
                exact ih ys zs hab hbc

/-- Model of `EventBuffer.get_batch`: SELECT id, event_type, data FROM
events ORDER BY created_at ASC LIMIT batch_size.  A SELECT leaves the
table unchanged, so the state component is returned as is; ties on
`created_at` come back in rowid order (the index scan), which a stable
sort of the rowid-ordered rows produces. -/
def getBatch (b : Buffer) (batchSize : Nat) :
    Buffer × List (Nat × String × String) :=
  (b, ((b.rows.insertionSort createdLe).take batchSize).map
    (fun e => (e.id, e.eventType, e.data)))

/-- Model of `EventBuffer.remove_events`: DELETE FROM events WHERE id
IN event_ids (a no-op on the empty list, as in the source). -/
def removeEvents (b : Buffer) (eventIds : List Nat) : Buffer :=
  ⟨b.rows.filter (fun e => !(eventIds.contains e.id)), b.nextId⟩

/-- Model of `EventBuffer.increment_attempts`: UPDATE events SET
attempts = attempts + 1 WHERE id IN event_ids. -/
def incrementAttempts (b : Buffer) (eventIds : List Nat) : Buffer :=
  ⟨b.rows.map (fun e =>
      if eventIds.contains e.id then
        ⟨e.id, e.eventType, e.data, e.createdAt, e.attempts + 1⟩
      else e),
   b.nextId⟩

/-- Model of `EventBuffer.remove_stale_events`: DELETE FROM events
WHERE attempts >= max_attempts; returns `cursor.rowcount`, the number
of deleted rows. -/
def removeStaleEvents (b : Buffer) (maxAttempts : Nat) : Buffer × Nat :=
  (⟨b.rows.filter (fun e => !(decide (maxAttempts ≤ e.attempts))), b.nextId⟩,
   (b.rows.filter (fun e => decide (maxAttempts ≤ e.attempts))).length)

/-- Model of `EventBuffer.count`: SELECT COUNT(*) FROM events. -/
def bufCount (b : Buffer) : Nat := b.rows.length

/-- Model of `EventBuffer.clear`: DELETE FROM events (administrative). -/
def bufClear (b : Buffer) : Buffer := ⟨[], b.nextId⟩

/-- Whether a row with the given id is present in the buffer. -/
def hasId (b : Buffer) (i : Nat) : Bool := b.rows.any (fun e => e.id = i)

/-- Public operations of `EventBuffer`, for stating which of them can
delete a row. -/
inductive BufOp where
  | addLog (data createdAt : String)
  | addFim (data createdAt : String)
  | batch (n : Nat)
  | bumpAttempts (ids : List Nat)
  | remove (ids : List Nat)
  | evictPoison (maxAttempts : Nat)
  | clearAll
deriving Repr, DecidableEq

/-- State transformer of one `EventBuffer` operation (outputs
discarded). -/
def applyOp (b : Buffer) : BufOp → Buffer
  | .addLog d c => (addLogEvent b d c).1
  | .addFim d c => (addFimEvent b d c).1
  | .batch n => (getBatch b n).1
  | .bumpAttempts ids => incrementAttempts b ids
  | .remove ids => removeEvents b ids
  | .evictPoison m => (removeStaleEvents b m).1
  | .clearAll => bufClear b

/-! Shipper (`shipper.py`). -/

/-- Connection status enum of `shipper.py`. -/
inductive ConnectionStatus where
  | connected
  | disconnected
  | connecting
  | error
deriving Repr, DecidableEq

/-- Observable state of `HTTPShipper` relevant to status reporting:
the private `_status` field and whether an `on_status_change` observer
was registered at construction. -/
structure ShipperState where
  status : ConnectionStatus
  hasObserver : Bool
deriving Repr, DecidableEq

/-- Model of the `HTTPShipper.status` setter: assign only when the
value differs from the current one, and in that case invoke the
registered observer with the new value.  The second component records
the observer invocations this assignment produced. -/
def setStatus (s : ShipperState) (value : ConnectionStatus) :
    ShipperState × List ConnectionStatus :=
  if s.status ≠ value then
    (⟨value, s.hasObserver⟩, if s.hasObserver then [value] else [])
  else (s, [])

/-- Sequence of assignments through the `status` setter, concatenating
the observer invocations. -/
def runAssignments (s : ShipperState) :
    List ConnectionStatus → ShipperState × List ConnectionStatus
  | [] => (s, [])
  | v :: vs =>
    let r1 := setStatus s v
    let r2 := runAssignments r1.1 vs
    (r2.1, r1.2 ++ r2.2)

/-- Modelled from the spec: the list of status transitions in a
sequence of assignments, one entry per assignment whose value differs
from the running status.  Stated from the spec's words for comparison
with `runAssignments`. -/
def specTransitions (cur : ConnectionStatus) :
    List ConnectionStatus → List ConnectionStatus
  | [] => []
  | v :: vs => if v = cur then specTransitions cur vs else v :: specTransitions v vs

/-- Outcome of one HTTP POST in `HTTPShipper._send_batch`, supplied by
the environment: a response with a status code, or one of the
exception classes the source catches. -/
inductive HTTPOutcome where
  | response (code : Nat)
  | connectError
  | timeout
  | otherError
deriving Repr, DecidableEq

/-- Configuration fields of `Config` that the shipper loop reads:
whether an API key is configured, and the batch size. -/
structure ShipCfg where
  apiKeyConfigured : Bool
  batchSize : Nat
deriving Repr, DecidableEq

/-- Model of `HTTPShipper._send_batch`: returns the shipper state, the
observer invocations, and the boolean result.  Mirrors the source
branch for branch: missing API key sets Error and fails; otherwise the
status becomes Connecting, then 200 succeeds, 401 sets Error and
fails, any other code sets Error and fails, connect errors and
timeouts set Disconnected and fail, other exceptions set Error and
fail. -/
def sendBatchStep (s : ShipperState) (cfg : ShipCfg) (o : HTTPOutcome) :
    ShipperState × List ConnectionStatus × Bool :=
  if !cfg.apiKeyConfigured then
    let r := setStatus s .error
    (r.1, r.2, false)
  else
    let r1 := setStatus s .connecting
    match o with
    | .response code =>
      if code = 200 then (r1.1, r1.2, true)
      else if code = 401 then
        let r2 := setStatus r1.1 .error
        (r2.1, r1.2 ++ r2.2, false)
      else
        let r2 := setStatus r1.1 .error
        (r2.1, r1.2 ++ r2.2, false)
    | .connectError =>
      let r2 := setStatus r1.1 .disconnected
      (r2.1, r1.2 ++ r2.2, false)
    | .timeout =>
      let r2 := setStatus r1.1 .disconnected
      (r2.1, r1.2 ++ r2.2, false)
    | .otherError =>
      let r2 := setStatus r1.1 .error
      (r2.1, r1.2 ++ r2.2, false)

/-- Model of `HTTPShipper._check_connection`: a 200 health probe sets
Connected, anything else (non-200 or exception) sets Disconnected. -/
def checkConnection (s : ShipperState) (probeOk : Bool) :
    ShipperState × List ConnectionStatus :=
  if probeOk then setStatus s .connected else setStatus s .disconnected

/-- Model of one iteration of `HTTPShipper._async_loop` (lines
122-153 of `shipper.py`): fetch a batch; if non-empty, send it and on
success remove the sent rows and set Connected, on failure increment
the attempt counters of the batch's ids; if empty and not Connected,
probe the health endpoint.  Notification polling, statistics, backoff
delays and sleeping are timing or side effects outside the state
modelled here. -/
def loopStep (s : ShipperState) (b : Buffer) (cfg : ShipCfg)
    (o : HTTPOutcome) (probeOk : Bool) :
    ShipperState × Buffer × List ConnectionStatus :=
  let batch := (getBatch b cfg.batchSize).2
  if batch.isEmpty then
    if s.status ≠ .connected then
      let r := checkConnection s probeOk
      (r.1, b, r.2)
    else (s, b, [])
  else
    let sent := sendBatchStep s cfg o
    let eventIds := batch.map (fun item => item.1)
    if sent.2.2 then
      let b1 := removeEvents b eventIds
      let r := setStatus sent.1 .connected
      (r.1, b1, sent.2.1 ++ r.2)
    else
      let b1 := incrementAttempts b eventIds
      (sent.1, b1, sent.2.1)

/-! Tailer (`watcher.py`). -/

/-- Non-empty suffixes of a list followed by the empty suffix, the
candidate remainders after a `*` consumed a prefix. -/
def suffixes : List Char → List (List Char)
  | [] => [[]]
  | c :: cs => (c :: cs) :: suffixes cs

/-- Shell-glob matching of `fnmatch.fnmatch` as the agent uses it:
`*` matches any run of characters (the `.*` of the translated regex,
tried against every suffix), `?` one character, anything else itself.
(Character classes do not occur in the agent's patterns.) -/
def globMatch : List Char → List Char → Bool
  | [], s => s.isEmpty
  | '*' :: ps, s => (suffixes s).any (fun t => globMatch ps t)
  | '?' :: ps, s =>
    match s with
    | [] => false
    | _ :: cs => globMatch ps cs
  | p :: ps, s =>
    match s with
    | [] => false
    | c :: cs => decide (p = c) && globMatch ps cs

/-- Final path component, as `os.path.basename` returns on POSIX
paths. -/
def basename (p : String) : String :=
  ⟨(p.data.reverse.takeWhile (fun c => c ≠ '/')).reverse⟩

/-- Python-dict update on an association list: replace the value in
place when the key is present, append otherwise. -/
def posSet (l : List (String × Nat)) (k : String) (v : Nat) :
    List (String × Nat) :=
  if l.any (fun p => p.1 = k) then
    l.map (fun p => if p.1 = k then (k, v) else p)
  else l ++ [(k, v)]

/-- Python-dict `pop` (key removal) on an association list. -/
def posErase (l : List (String × Nat)) (k : String) : List (String × Nat) :=
  l.filter (fun p => !(p.1 = k))

/-- Line splitting of Python `readlines`: split after each newline,
keeping the terminator; a final unterminated chunk is its own line. -/
def splitLinesKeep : List Char → List (List Char)
  | [] => []
  | c :: cs =>
    if c = '\n' then [c] :: splitLinesKeep cs
    else
      match splitLinesKeep cs with
      | [] => [[c]]
      | l :: ls => (c :: l) :: ls

/-- Python `line.rstrip` over the two newline characters: drop
trailing LF and CR characters. -/
def rstripNewline (l : List Char) : List Char :=
  (l.reverse.dropWhile (fun c => c = '\n' || c = '\r')).reverse

/-- Truthiness of `line.strip()`: the line holds some non-whitespace
character. -/
def keepLine (l : List Char) : Bool := l.any (fun c => !c.isWhitespace)

/-- Model of `LogFileHandler._read_new_lines` on a file with the given
content: compute the size, reset the position to 0 when the file
shrank below the stored position, read from the position to EOF, and
return the retained stripped lines together with the post-read
position (EOF), which the handler stores back. -/
def readNewLines (content : List Char) (storedPos : Nat) :
    List (List Char) × Nat :=
  let fileSize := content.length
  let currentPos := if fileSize < storedPos then 0 else storedPos
  let lines := splitLinesKeep (content.drop currentPos)
  ((lines.filter keepLine).map rstripNewline, fileSize)

/-- State of a `LogFileHandler`: the watch pattern and the in-memory
`_file_positions` offset table. -/
structure LogFileHandler where
  pattern : String
  positions : List (String × Nat)
deriving Repr, DecidableEq

/-- Model of `LogFileHandler._matches_pattern`: glob over the basename
only. -/
def matchesPattern (h : LogFileHandler) (filePath : String) : Bool :=
  globMatch h.pattern.data (basename filePath).data

/-- Fields of a tailer `LogEvent` determined by the handler itself;
timestamp, hostname and metadata come from the environment and are
elided. -/
structure LogEventRec where
  filePath : String
  message : List Char
deriving Repr, DecidableEq

/-- Model of `LogFileHandler._process_file`: skip non-matching paths
and non-files, otherwise drain from the stored offset (default 0),
store the new offset, and emit one record per retained line, in
order.  `file` is `none` when the path is not a regular file. -/
def processFile (h : LogFileHandler) (filePath : String)
    (file : Option (List Char)) : LogFileHandler × List LogEventRec :=
  if !matchesPattern h filePath then (h, [])
  else
    match file with
    | none => (h, [])
    | some content =>
      let storedPos := ((h.positions.lookup filePath).getD 0)
      let r := readNewLines content storedPos
      (⟨h.pattern, posSet h.positions filePath r.2⟩,
       r.1.map (fun line => ⟨filePath, line⟩))

/-- Model of `LogFileHandler.on_created` for a file event: set the
path's position to 0, then process the file. -/
def onCreated (h : LogFileHandler) (filePath : String)
    (file : Option (List Char)) : LogFileHandler × List LogEventRec :=
  processFile ⟨h.pattern, posSet h.positions filePath 0⟩ filePath file

/-- Model of `LogFileHandler.on_modified` for a file event. -/
def onModified (h : LogFileHandler) (filePath : String)
    (file : Option (List Char)) : LogFileHandler × List LogEventRec :=
  processFile h filePath file

/-- Model of `LogFileHandler.on_moved` for a file event: when the
source path is tracked, pop its position and store it under the
destination path.  The handler body does nothing else, so the emitted
record list is empty. -/
def onMoved (h : LogFileHandler) (srcPath dstPath : String) :
    LogFileHandler × List LogEventRec :=
  match h.positions.lookup srcPath with
  | some n => (⟨h.pattern, posSet (posErase h.positions srcPath) dstPath n⟩, [])
  | none => (h, [])

/-- Model of the handler construction in `FileWatcher.start` (lines
144-187 of `watcher.py`): for each enabled watch path whose directory
exists, a `LogFileHandler` is constructed with an empty
`_file_positions` table and scheduled; `start` enumerates no existing
files and initializes no offsets. -/
def fileWatcherStartHandler (pattern : String) : LogFileHandler :=
  ⟨pattern, []⟩

/-! File integrity monitor (`fim.py`). -/

/-- State of `BaselineDatabase`: rows (file_path, hash, metadata) of
the `baselines` table, keyed by path (PRIMARY KEY). -/
structure BaselineDb where
  entries : List (String × String × String)
deriving Repr, DecidableEq

/-- Model of `BaselineDatabase.get_baseline`: the (hash, metadata)
stored for the path, if any. -/
def dbGet (db : BaselineDb) (filePath : String) : Option (String × String) :=
  db.entries.lookup filePath

/-- Model of `BaselineDatabase.set_baseline`: upsert by primary key. -/
def dbSet (db : BaselineDb) (filePath fileHash meta : String) : BaselineDb :=
  if db.entries.any (fun e => e.1 = filePath) then
    ⟨db.entries.map (fun e =>
      if e.1 = filePath then (filePath, fileHash, meta) else e)⟩
  else ⟨db.entries ++ [(filePath, fileHash, meta)]⟩

/-- Model of `BaselineDatabase.remove_baseline`. -/
def dbRemove (db : BaselineDb) (filePath : String) : BaselineDb :=
  ⟨db.entries.filter (fun e => !(e.1 = filePath))⟩

/-- Fields of a `FIMEvent` determined by the handler; timestamp,
hostname, owner, permissions and metadata come from the environment
and are elided. -/
structure FIMEventRec where
  eventType : String
  filePath : String
  previousHash : Option String
  currentHash : Option String
deriving Repr, DecidableEq

/-- Model of `FIMHandler.on_modified` for a file event whose hash
computation result is `currentHash` (`none` when `compute_file_hash`
failed) and whose stat metadata is `meta`: skip non-matching paths;
skip when hashing failed (Python falsiness also skips an empty hash
string); suppress when a truthy baseline hash equals the current hash;
otherwise upsert the baseline and emit one `modified` record carrying
the old and new hashes. -/
def fimOnModified (pat : String) (db : BaselineDb) (filePath : String)
    (currentHash : Option String) (meta : String) :
    BaselineDb × List FIMEventRec :=
  if !globMatch pat.data (basename filePath).data then (db, [])
  else
    let baseline := dbGet db filePath
    let previousHash := baseline.map (fun b => b.1)
    match currentHash with
    | none => (db, [])
    | some c =>
      if c = "" then (db, [])
      else if (match previousHash with
               | some p => decide (¬ p = "") && decide (p = c)
               | none => false) then (db, [])
      else (dbSet db filePath c meta,
            [⟨"modified", filePath, previousHash, some c⟩])

/-! Supervisor pause gate (`agent.py`). -/

/-- State of the `Agent` relevant to the pause gate: the `_paused`
flag and the shared event buffer. -/
structure AgentState where
  paused : Bool
  buffer : Buffer
deriving Repr, DecidableEq

/-- Model of `Agent._on_log_event`: drop the event while paused,
otherwise enqueue it through the shipper into the buffer.  `data` is
the serialized record and `createdAt` the enqueue clock reading. -/
def agentOnLogEvent (a : AgentState) (data createdAt : String) : AgentState :=
  if a.paused then a
  else ⟨a.paused, (addLogEvent a.buffer data createdAt).1⟩

/-- Model of `Agent._on_fim_event`: drop the event while paused,
otherwise enqueue it. -/
def agentOnFimEvent (a : AgentState) (data createdAt : String) : AgentState :=
  if a.paused then a
  else ⟨a.paused, (addFimEvent a.buffer data createdAt).1⟩

/-- One modify event flowing through tailer and agent: the handler
drains the file (advancing its offset) and delivers each record to
`Agent._on_log_event`; `ser` is the record serialization
(`json.dumps`) and `createdAt` the enqueue clock reading. -/
def agentHandleModify (a : AgentState) (h : LogFileHandler)
    (filePath : String) (file : Option (List Char))
    (ser : LogEventRec → String) (createdAt : String) :
    AgentState × LogFileHandler :=
  let r := onModified h filePath file
  (r.2.foldl (fun st ev => agentOnLogEvent st (ser ev) createdAt) a, r.1)

/-! Helper lemmas. -/

theorem lookup_map_upsert {β : Type} (k : String) (v : β) :
    ∀ l : List (String × β), l.any (fun p => p.1 = k) = true →
      (l.map (fun p => if p.1 = k then (k, v) else p)).lookup k = some v := by
  intro l
  induction l with
  | nil => simp
  | cons e t ih =>
    intro hany
    by_cases he : e.1 = k
    · rw [List.map_cons, if_pos he]
      simp [List.lookup]
    · have ht : t.any (fun p => p.1 = k) = true := by
        simpa [List.any_cons, he] using hany
      have hne : (k == e.1) = false := by
        simp [BEq.beq]
        exact fun hk => he hk.symm
      rw [List.map_cons, if_neg he]
      simp only [List.lookup, hne]
      exact ih ht

theorem lookup_append_upsert {β : Type} (k : String) (v : β) :
    ∀ l : List (String × β), l.any (fun p => p.1 = k) = false →
      (l ++ [(k, v)]).lookup k = some v := by
  intro l
  induction l with
  | nil => simp [List.lookup]
  | cons e t ih =>
    intro hany
    have he : ¬ e.1 = k := by
      intro hk
      simp [List.any_cons, hk] at hany
    have ht : t.any (fun p => p.1 = k) = false := by
      simpa [List.any_cons, he] using hany
    have hne : (k == e.1) = false := by
      simp [BEq.beq]
      exact fun hk => he hk.symm
    simp [List.lookup, hne, ih ht]

theorem lookup_posSet_self (l : List (String × Nat)) (k : String) (v : Nat) :
    (posSet l k v).lookup k = some v := by
  unfold posSet
  by_cases hany : l.any (fun p => p.1 = k) = true
  · rw [if_pos hany]
    exact lookup_map_upsert k v l hany
  · rw [if_neg hany]
    exact lookup_append_upsert k v l (Bool.eq_false_iff.mpr hany)

theorem dbGet_dbSet_self (db : BaselineDb) (p fileHash meta : String) :
    dbGet (dbSet db p fileHash meta) p = some (fileHash, meta) := by
  unfold dbGet dbSet
  by_cases hany : db.entries.any (fun e => e.1 = p) = true
  · rw [if_pos hany]
    exact lookup_map_upsert p (fileHash, meta) db.entries hany
  · rw [if_neg hany]
    exact lookup_append_upsert p (fileHash, meta) db.entries (Bool.eq_false_iff.mpr hany)

theorem setStatus_fst_status (s : ShipperState) (v : ConnectionStatus) :
    (setStatus s v).1.status = v := by
  unfold setStatus
  by_cases h : s.status = v
  · simp [h]
  · simp [h]

theorem setStatus_fst_hasObserver (s : ShipperState) (v : ConnectionStatus) :
    (setStatus s v).1.hasObserver = s.hasObserver := by
  unfold setStatus
  by_cases h : s.status = v
  · simp [h]
  · simp [h]

theorem splitLinesKeep_ne_nil (c : Char) (cs : List Char) :
    splitLinesKeep (c :: cs) ≠ [] := by
  unfold splitLinesKeep
  by_cases h : c = '\n'
  · simp [h]
  · simp only [h, if_false]
    cases splitLinesKeep cs <;> simp

theorem splitLinesKeep_flatten : ∀ s : List Char, (splitLinesKeep s).flatten = s := by
  intro s
  induction s with
  | nil => simp [splitLinesKeep]
  | cons c cs ih =>
    unfold splitLinesKeep
    by_cases h : c = '\n'
    · simp [h, ih]
    · simp only [h, if_false]
      cases hcs : splitLinesKeep cs with
      | nil =>
        cases cs with
        | nil => simp
        | cons d ds => exact absurd hcs (splitLinesKeep_ne_nil d ds)
      | cons l ls =>
        have hjoin : (l :: ls).flatten = cs := by rw [← hcs]; exact ih
        simpa using hjoin

theorem rstripNewline_sublist (l : List Char) : (rstripNewline l).Sublist l := by
  unfold rstripNewline
  have h1 : (l.reverse.dropWhile (fun c => c = '\n' || c = '\r')).Sublist l.reverse :=
    List.dropWhile_sublist _
  simpa using h1.reverse

theorem readNewLines_messages_sublist (content : List Char) (storedPos : Nat) :
    ∀ msg ∈ (readNewLines content storedPos).1, msg.Sublist content := by
  intro msg hmsg
  unfold readNewLines at hmsg
  simp only [List.mem_map, List.mem_filter] at hmsg
  obtain ⟨line, ⟨hline, _⟩, hstrip⟩ := hmsg
  have hinfix : line.IsInfix ((splitLinesKeep (content.drop _)).flatten) :=
    List.infix_of_mem_flatten hline
  rw [splitLinesKeep_flatten] at hinfix
  have hsub : line.Sublist content :=
    hinfix.sublist.trans (List.drop_sublist _ _)
  rw [← hstrip]
  exact (rstripNewline_sublist line).trans hsub

theorem incrementAttempts_map_id (b : Buffer) (ids : List Nat) :
    ((incrementAttempts b ids).rows.map (fun e => e.id))
      = b.rows.map (fun e => e.id) := by
  unfold incrementAttempts
  simp only [List.map_map]
  apply List.map_congr_left
  intro e _
  simp only [Function.comp]
  split <;> rfl

theorem sendBatchStep_response_401 (s : ShipperState) (cfg : ShipCfg)
    (hkey : cfg.apiKeyConfigured = true) :
    (sendBatchStep s cfg (.response 401)).1.status = .error
    ∧ (sendBatchStep s cfg (.response 401)).2.2 = false := by
  unfold sendBatchStep
  simp only [hkey, Bool.not_true, Bool.false_eq_true, if_false]
  refine ⟨?_, rfl⟩
  exact setStatus_fst_status _ _

/-! Claim theorems. -/

/-- C3: for every modify event on a path that matches the pattern and
has a baseline entry, if the computed content hash equals the stored
baseline hash then `FIMHandler.on_modified` emits no event and leaves
the baseline store unchanged (quiet-write suppression). -/
theorem fim_quiet_write_suppression (pat : String) (db : BaselineDb)
    (filePath meta fileHash m : String)
    (hmatch : globMatch pat.data (basename filePath).data = true)
    (hbase : dbGet db filePath = some (fileHash, m)) :
    fimOnModified pat db filePath (some fileHash) meta = (db, []) := by
  unfold fimOnModified
  rw [hmatch, hbase]
  by_cases hf : fileHash = ""
  · simp [hf]
  · simp [hf]

theorem fim_quiet_write_suppression_witness :
    fimOnModified "*.conf" ⟨[("/etc/app/x.conf", "sha256:aa", "md")]⟩
      "/etc/app/x.conf" (some "sha256:aa") "md2"
      = (⟨[("/etc/app/x.conf", "sha256:aa", "md")]⟩, []) :=
  fim_quiet_write_suppression "*.conf" ⟨[("/etc/app/x.conf", "sha256:aa", "md")]⟩
    "/etc/app/x.conf" "md2" "sha256:aa" "md" (by decide) (by decide)

/-- C10: for every modify event on a path that matches the pattern,
hashes successfully (a successful `compute_file_hash` result is
`algorithm:hex`, hence non-empty), and has no baseline entry,
`FIMHandler.on_modified` emits exactly one event with event type
`modified` and previous hash null, and upserts a baseline entry for
the path. -/
theorem fim_unbaselined_modify_emits_modified (pat : String) (db : BaselineDb)
    (filePath meta c : String)
    (hmatch : globMatch pat.data (basename filePath).data = true)
    (hbase : dbGet db filePath = none)
    (hc : ¬ c = "") :
    fimOnModified pat db filePath (some c) meta
      = (dbSet db filePath c meta, [⟨"modified", filePath, none, some c⟩])
    ∧ dbGet (dbSet db filePath c meta) filePath = some (c, meta) := by
  constructor
  · unfold fimOnModified
    rw [hmatch, hbase]
    simp [hc]
  · exact dbGet_dbSet_self db filePath c meta

theorem fim_unbaselined_modify_emits_modified_witness :
    (fimOnModified "*.conf" ⟨[]⟩ "/etc/app/x.conf" (some "sha256:bb") "md"
      = (dbSet ⟨[]⟩ "/etc/app/x.conf" "sha256:bb" "md",
         [⟨"modified", "/etc/app/x.conf", none, some "sha256:bb"⟩]))
    ∧ dbGet (dbSet ⟨[]⟩ "/etc/app/x.conf" "sha256:bb" "md") "/etc/app/x.conf"
        = some ("sha256:bb", "md") :=
  fim_unbaselined_modify_emits_modified "*.conf" ⟨[]⟩ "/etc/app/x.conf"
    "md" "sha256:bb" (by decide) (by decide) (by decide)

/-- C6: whenever a drain pass finds the current file size strictly
smaller than the stored offset, `LogFileHandler._read_new_lines`
resets the offset to zero, drains the whole current content, stores
the new offset at EOF, and every emitted message is made of the
file's current bytes only. -/
theorem tailer_truncation_resets_offset (content : List Char) (storedPos : Nat)
    (hshrunk : content.length < storedPos) :
    readNewLines content storedPos
      = (((splitLinesKeep content).filter keepLine).map rstripNewline,
         content.length)
    ∧ ∀ msg ∈ (readNewLines content storedPos).1, msg.Sublist content := by
  constructor
  · unfold readNewLines
    simp [hshrunk]
  · exact readNewLines_messages_sublist content storedPos

theorem tailer_truncation_resets_offset_witness :
    (readNewLines ("new\n".data) 5
      = (((splitLinesKeep ("new\n".data)).filter keepLine).map rstripNewline,
         ("new\n".data).length)
    ∧ ∀ msg ∈ (readNewLines ("new\n".data) 5).1, msg.Sublist ("new\n".data)) :=
  tailer_truncation_resets_offset ("new\n".data) 5 (by decide)

/-- C8: for every sequence of assignments through the shipper's status
setter with an observer registered, the observer is invoked exactly
once per status transition — once for each assignment whose value
differs from the running status, and never for an assignment of the
current value (`specTransitions` lists exactly those transitions). -/
theorem shipper_status_observer_exactly_once (s : ShipperState)
    (vs : List ConnectionStatus) (hobs : s.hasObserver = true) :
    (runAssignments s vs).2 = specTransitions s.status vs := by
  induction vs generalizing s with
  | nil => rfl
  | cons v vs ih =>
    by_cases hv : v = s.status
    · have hset : setStatus s v = (s, []) := by
        unfold setStatus
        simp [hv]
      simp only [runAssignments, hset, specTransitions, if_pos hv]
      simpa using ih s hobs
    · have hne : s.status ≠ v := fun h => hv h.symm
      have hset : setStatus s v = (⟨v, s.hasObserver⟩, [v]) := by
        unfold setStatus
        simp [hne, hobs]
      simp only [runAssignments, hset, specTransitions, if_neg hv]
      have ih2 := ih ⟨v, s.hasObserver⟩ (by simpa using hobs)
      simpa using ih2

theorem shipper_status_observer_exactly_once_witness :
    (runAssignments ⟨.disconnected, true⟩
        [.connecting, .connecting, .error, .connected, .connected]).2
      = specTransitions .disconnected
        [.connecting, .connecting, .error, .connected, .connected] :=
  shipper_status_observer_exactly_once ⟨.disconnected, true⟩
    [.connecting, .connecting, .error, .connected, .connected] rfl

/-- C5: across the buffer's pipeline operations (`clear` is
administrative and excluded), a row disappears only through
`remove_events` with its id listed or through `remove_stale_events`
with its attempts at or above the threshold; `remove_stale_events`
keeps a row iff its attempts are below the threshold and returns the
count of rows at or above it. -/
theorem buffer_removal_policy :
    (∀ (b : Buffer) (op : BufOp) (i : Nat), op ≠ BufOp.clearAll →
      hasId b i = true → hasId (applyOp b op) i = false →
      (∃ ids, op = BufOp.remove ids ∧ ids.contains i = true)
      ∨ (∃ m, op = BufOp.evictPoison m
           ∧ ∃ e ∈ b.rows, e.id = i ∧ m ≤ e.attempts))
    ∧ (∀ (b : Buffer) (m : Nat) (e : BufEntry), e ∈ b.rows →
        (e ∈ ((removeStaleEvents b m).1).rows ↔ e.attempts < m))
    ∧ (∀ (b : Buffer) (m : Nat),
        (removeStaleEvents b m).2
          = b.rows.countP (fun e => decide (m ≤ e.attempts))) := by
  refine ⟨?_, ?_, ?_⟩
  · intro b op i hop hin hout
    obtain ⟨e, hmem, hid⟩ : ∃ e ∈ b.rows, e.id = i := by
      simpa [hasId, List.any_eq_true] using hin
    cases op with
    | addLog d c =>
      exfalso
      have hkeep : hasId (applyOp b (.addLog d c)) i = true := by
        have happ : (b.rows ++ [(⟨b.nextId, "log", d, c, 0⟩ : BufEntry)]).any
            (fun e => e.id = i) = true := by
          rw [List.any_append]
          have hin' : b.rows.any (fun e => e.id = i) = true := hin
          simp [hin']
        exact happ
      rw [hkeep] at hout
      simp at hout
    | addFim d c =>
      exfalso
      have hkeep : hasId (applyOp b (.addFim d c)) i = true := by
        have happ : (b.rows ++ [(⟨b.nextId, "fim", d, c, 0⟩ : BufEntry)]).any
            (fun e => e.id = i) = true := by
          rw [List.any_append]
          have hin' : b.rows.any (fun e => e.id = i) = true := hin
          simp [hin']
        exact happ
      rw [hkeep] at hout
      simp at hout
    | batch n =>
      exfalso
      have hb : applyOp b (.batch n) = b := rfl
      rw [hb, hin] at hout
      simp at hout
    | bumpAttempts ids =>
      exfalso
      have hmem2 := List.mem_map_of_mem
        (fun e : BufEntry =>
          if ids.contains e.id then
            ⟨e.id, e.eventType, e.data, e.createdAt, e.attempts + 1⟩
          else e) hmem
      have hkeep : hasId (applyOp b (.bumpAttempts ids)) i = true := by
        apply List.any_eq_true.mpr
        refine ⟨_, hmem2, ?_⟩
        simp only [decide_eq_true_eq]
        by_cases hc : ids.contains e.id = true
        · rw [if_pos hc]
          exact hid
        · rw [if_neg hc]
          exact hid
      rw [hkeep] at hout
      simp at hout
    | remove ids =>
      by_cases hc : ids.contains i = true
      · exact Or.inl ⟨ids, rfl, hc⟩
      · exfalso
        have hcf : ids.contains i = false := by simpa using hc
        have hkeep : hasId (applyOp b (.remove ids)) i = true := by
          apply List.any_eq_true.mpr
          refine ⟨e, ?_, by simp [hid]⟩
          apply List.mem_filter.mpr
          refine ⟨hmem, ?_⟩
          show (! (ids.contains e.id)) = true
          rw [hid, hcf]
          rfl
        rw [hkeep] at hout
        simp at hout
    | evictPoison m =>
      by_cases ha : m ≤ e.attempts
      · exact Or.inr ⟨m, rfl, e, hmem, hid, ha⟩
      · exfalso
        have hkeep : hasId (applyOp b (.evictPoison m)) i = true := by
          apply List.any_eq_true.mpr
          refine ⟨e, ?_, by simp [hid]⟩
          apply List.mem_filter.mpr
          refine ⟨hmem, ?_⟩
          show (! (decide (m ≤ e.attempts))) = true
          rw [decide_eq_false ha]
          rfl
        rw [hkeep] at hout
        simp at hout
    | clearAll => exact absurd rfl hop
  · intro b m e hmem
    simp [removeStaleEvents, List.mem_filter, hmem, Nat.not_le, Nat.lt_iff_add_one_le]
  · intro b m
    simp [removeStaleEvents, List.countP_eq_length_filter]

theorem buffer_removal_policy_witness :
    (∃ ids, BufOp.remove [7] = BufOp.remove ids ∧ ids.contains 7 = true)
    ∨ (∃ m, BufOp.remove [7] = BufOp.evictPoison m
         ∧ ∃ e ∈ (Buffer.mk [⟨7, "log", "d", "t", 0⟩] 8).rows,
           e.id = 7 ∧ m ≤ e.attempts) :=
  buffer_removal_policy.1 ⟨[⟨7, "log", "d", "t", 0⟩], 8⟩ (.remove [7]) 7
    (by decide) (by decide) (by decide)

/-- Buffer used by the C1 counterexample: one enqueued log event with
attempt counter 0. -/
def b401 : Buffer := (addLogEvent Buffer.empty "payload" "t0").1

/-- C1 counterexample: on a 401 response the loop does increment the
attempt counter of the batch's entry (0 becomes 1), while it does set
Error and retain the row, so the claim's "attempts not incremented"
part is false of the code. -/
theorem shipper_401_increments_attempts_cx :
    ((loopStep ⟨.disconnected, false⟩ b401 ⟨true, 100⟩ (.response 401) false).2.1.rows.map
        (fun e => e.attempts) = [1])
    ∧ ¬ ((loopStep ⟨.disconnected, false⟩ b401 ⟨true, 100⟩ (.response 401) false).2.1.rows.map
          (fun e => e.attempts)
        = b401.rows.map (fun e => e.attempts))
    ∧ (loopStep ⟨.disconnected, false⟩ b401 ⟨true, 100⟩ (.response 401) false).1.status
        = .error := by
  refine ⟨by decide, by decide, by decide⟩

/-- C1 (amended): for every non-empty batch, a 401 response makes the
loop set the connection status to Error, retain every row of the
buffer (ids unchanged, nothing removed), and increment the attempt
counters of exactly the batch's entries — the same failure path as
other non-2xx responses. -/
theorem shipper_401_marks_error_retains_and_bumps
    (s : ShipperState) (b : Buffer) (cfg : ShipCfg) (probeOk : Bool)
    (hkey : cfg.apiKeyConfigured = true)
    (hne : ((getBatch b cfg.batchSize).2).isEmpty = false) :
    (loopStep s b cfg (.response 401) probeOk).1.status = .error
    ∧ (loopStep s b cfg (.response 401) probeOk).2.1
        = incrementAttempts b
            (((getBatch b cfg.batchSize).2).map (fun item => item.1))
    ∧ ((loopStep s b cfg (.response 401) probeOk).2.1).rows.map (fun e => e.id)
        = b.rows.map (fun e => e.id) := by
  have hsend := sendBatchStep_response_401 s cfg hkey
  simp only [loopStep, hne, Bool.false_eq_true, if_false, hsend.2]
  refine ⟨hsend.1, ?_, ?_⟩
  · trivial
  · exact incrementAttempts_map_id b _

theorem shipper_401_marks_error_retains_and_bumps_witness :
    (loopStep ⟨.connected, false⟩ b401 ⟨true, 100⟩ (.response 401) false).1.status
        = .error
    ∧ (loopStep ⟨.connected, false⟩ b401 ⟨true, 100⟩ (.response 401) false).2.1
        = incrementAttempts b401
            (((getBatch b401 100).2).map (fun item => item.1))
    ∧ ((loopStep ⟨.connected, false⟩ b401 ⟨true, 100⟩ (.response 401) false).2.1).rows.map
          (fun e => e.id)
        = b401.rows.map (fun e => e.id) :=
  shipper_401_marks_error_retains_and_bumps ⟨.connected, false⟩ b401 ⟨true, 100⟩
    false rfl (by decide)

/-- Buffer used by the C4 counterexample: two enqueues during which
the wall clock (`datetime.utcnow`, not monotonic) stepped backwards,
so `created_at` order disagrees with id order. -/
def c4Buffer : Buffer :=
  (addLogEvent (addLogEvent Buffer.empty "p1" "2024-01-01T00:00:02").1
    "p2" "2024-01-01T00:00:01").1

/-- C4 counterexample: `get_batch` orders by `created_at`, not by id,
so on a buffer whose enqueue clock stepped backwards it returns ids
[2, 1] — not insertion (ascending id) order. -/
theorem buffer_batch_not_id_order_cx :
    ((getBatch c4Buffer 10).2.map (fun item => item.1) = [2, 1])
    ∧ ¬ ((getBatch c4Buffer 10).2.map (fun item => item.1)
          = c4Buffer.rows.map (fun e => e.id)) := by
  refine ⟨by decide, by decide⟩

/-- Buffer used by the C4 witness: two rows enqueued within the same
clock reading, so their `created_at` values tie. -/
def c4TieBuffer : Buffer :=
  ⟨[⟨1, "log", "p1", "2024-01-01T00:00:01", 0⟩,
    ⟨2, "fim", "p2", "2024-01-01T00:00:01", 0⟩], 3⟩

/-- C4 (amended): for every buffer state and every limit, `get_batch`
removes nothing and returns up to `limit` entries (their number is the
minimum of the limit and the row count), namely the first `limit` rows
of the stable sort of the rowid-ordered rows by `created_at`: that
sort is ordered by `created_at`, and any `created_at`-tied (or more
generally `createdLe`-related) pair keeps its insertion order; when
`created_at` is nondecreasing across insertion order — a monotone
enqueue clock — the batch is the first `limit` rows in insertion
order, with strictly ascending ids. -/
theorem buffer_batch_nondestructive_sorted :
    (∀ (b : Buffer) (n : Nat), (getBatch b n).1 = b)
    ∧ (∀ (b : Buffer) (n : Nat),
        (getBatch b n).2
          = ((b.rows.insertionSort createdLe).take n).map
              (fun e => (e.id, e.eventType, e.data)))
    ∧ (∀ (b : Buffer) (n : Nat),
        (getBatch b n).2.length = min n b.rows.length)
    ∧ (∀ b : Buffer, List.Pairwise createdLe (b.rows.insertionSort createdLe))
    ∧ (∀ (b : Buffer) (e1 e2 : BufEntry), createdLe e1 e2 →
        [e1, e2].Sublist b.rows →
        [e1, e2].Sublist (b.rows.insertionSort createdLe))
    ∧ (∀ (b : Buffer) (n : Nat), b.rows.Pairwise createdLe →
        b.rows.Pairwise (fun e1 e2 => e1.id < e2.id) →
        (getBatch b n).2
          = (b.rows.take n).map (fun e => (e.id, e.eventType, e.data))
        ∧ List.Sorted (· < ·)
            (((getBatch b n).2).map (fun item => item.1))) := by
  refine ⟨?_, ?_, ?_, ?_, ?_, ?_⟩
  · intro b n
    rfl
  · intro b n
    rfl
  · intro b n
    unfold getBatch
    simp [List.length_map, List.length_take, List.length_insertionSort]
  · intro b
    exact List.sorted_insertionSort createdLe b.rows
  · intro b e1 e2 hle hsub
    exact List.pair_sublist_insertionSort hle hsub
  · intro b n hmono hids
    have hsort : b.rows.insertionSort createdLe = b.rows :=
      List.Sorted.insertionSort_eq hmono
    constructor
    · unfold getBatch
      rw [hsort]
    · unfold getBatch
      rw [hsort, List.map_map]
      have hp : List.Pairwise (fun e1 e2 : BufEntry => e1.id < e2.id)
          (b.rows.take n) :=
        List.Pairwise.sublist (List.take_sublist n b.rows) hids
      exact List.pairwise_map.mpr hp

theorem buffer_batch_nondestructive_sorted_witness :
    ((getBatch c4TieBuffer 10).1 = c4TieBuffer)
    ∧ [(⟨1, "log", "p1", "2024-01-01T00:00:01", 0⟩ : BufEntry),
        ⟨2, "fim", "p2", "2024-01-01T00:00:01", 0⟩].Sublist
        (c4TieBuffer.rows.insertionSort createdLe)
    ∧ ((getBatch c4TieBuffer 1).2
        = (c4TieBuffer.rows.take 1).map (fun e => (e.id, e.eventType, e.data))
      ∧ List.Sorted (· < ·)
          (((getBatch c4TieBuffer 1).2).map (fun item => item.1))) :=
  ⟨buffer_batch_nondestructive_sorted.1 c4TieBuffer 10,
   buffer_batch_nondestructive_sorted.2.2.2.2.1 c4TieBuffer
     ⟨1, "log", "p1", "2024-01-01T00:00:01", 0⟩
     ⟨2, "fim", "p2", "2024-01-01T00:00:01", 0⟩
     (by decide) (List.Sublist.refl _),
   buffer_batch_nondestructive_sorted.2.2.2.2.2 c4TieBuffer 1
     (by decide) (by decide)⟩

/-- C7 counterexample: `on_moved` with a tracked source transfers the
offset to the destination but drains nothing — the emitted record list
is empty even though a drain of the destination (content `abc\nde\n`,
transferred offset 4) would emit the line `de`. -/
theorem tailer_move_no_drain_cx :
    onMoved ⟨"*.log", [("/w/a.log", 4)]⟩ "/w/a.log" "/w/b.log"
      = (⟨"*.log", [("/w/b.log", 4)]⟩, [])
    ∧ (readNewLines ("abc\nde\n".data) 4).1 = [['d', 'e']]
    ∧ ¬ ((readNewLines ("abc\nde\n".data) 4).1 = []) := by
  refine ⟨by decide, by decide, by decide⟩

/-- C7 (amended): for every move event whose source path is tracked,
`on_moved` transfers the source's stored offset to the destination
path (the destination then resolves to that offset) and emits nothing;
the destination is drained only by its own later events. -/
theorem tailer_move_transfers_offset_only
    (h : LogFileHandler) (srcPath dstPath : String) (n : Nat)
    (hsrc : h.positions.lookup srcPath = some n) :
    onMoved h srcPath dstPath
      = (⟨h.pattern, posSet (posErase h.positions srcPath) dstPath n⟩, [])
    ∧ ((onMoved h srcPath dstPath).1.positions.lookup dstPath) = some n := by
  have heq : onMoved h srcPath dstPath
      = (⟨h.pattern, posSet (posErase h.positions srcPath) dstPath n⟩, []) := by
    unfold onMoved
    rw [hsrc]
  refine ⟨heq, ?_⟩
  rw [heq]
  exact lookup_posSet_self _ _ _

theorem tailer_move_transfers_offset_only_witness :
    onMoved ⟨"*.log", [("/w/a.log", 4)]⟩ "/w/a.log" "/w/b.log"
      = (⟨"*.log", posSet (posErase [("/w/a.log", 4)] "/w/a.log") "/w/b.log" 4⟩,
         [])
    ∧ ((onMoved ⟨"*.log", [("/w/a.log", 4)]⟩ "/w/a.log"
          "/w/b.log").1.positions.lookup "/w/b.log") = some 4 :=
  tailer_move_transfers_offset_only ⟨"*.log", [("/w/a.log", 4)]⟩
    "/w/a.log" "/w/b.log" 4 (by decide)

/-- C2: evaluation at the failing input.  `FileWatcher.start` builds
every handler with an empty `_file_positions` table and enumerates no
existing files, so the first modify event on a file that pre-existed
start drains it from the default offset 0: with pre-existing content
`x\n` and appended `y\n`, the pre-existing line `x` is emitted,
contradicting the claimed initialization of offsets to the file's
current size (which would emit only `y`). -/
theorem tailer_start_replays_preexisting_content :
    (fileWatcherStartHandler "*.log").positions = []
    ∧ (onModified (fileWatcherStartHandler "*.log") "/tmp/w/a.log"
        (some ("x\ny\n".data))).2
      = [⟨"/tmp/w/a.log", ['x']⟩, ⟨"/tmp/w/a.log", ['y']⟩]
    ∧ ['x'] ∈ ((onModified (fileWatcherStartHandler "*.log") "/tmp/w/a.log"
        (some ("x\ny\n".data))).2.map (fun ev => ev.message)) := by
  refine ⟨rfl, by decide, by decide⟩

/-- C9: while the agent is paused, a modify event delivered through
the tailer enqueues nothing (the agent state, hence `count()`, is
unchanged), any sequence of log or FIM deliveries enqueues nothing,
and the file's offset still advances to EOF. -/
theorem pause_gate_no_enqueue
    (a : AgentState) (h : LogFileHandler) (filePath : String)
    (content : List Char) (ser : LogEventRec → String) (createdAt : String)
    (hp : a.paused = true)
    (hm : matchesPattern h filePath = true) :
    (agentHandleModify a h filePath (some content) ser createdAt).1 = a
    ∧ bufCount ((agentHandleModify a h filePath (some content) ser
          createdAt).1.buffer)
        = bufCount a.buffer
    ∧ ((agentHandleModify a h filePath (some content) ser
          createdAt).2).positions.lookup filePath
        = some content.length
    ∧ (∀ ds : List (String × String),
        ds.foldl (fun st dc => agentOnLogEvent st dc.1 dc.2) a = a)
    ∧ (∀ ds : List (String × String),
        ds.foldl (fun st dc => agentOnFimEvent st dc.1 dc.2) a = a) := by
  have hlog : ∀ (d c : String), agentOnLogEvent a d c = a := by
    intro d c
    simp [agentOnLogEvent, hp]
  have hfim : ∀ (d c : String), agentOnFimEvent a d c = a := by
    intro d c
    simp [agentOnFimEvent, hp]
  have hfoldEv : ∀ evs : List LogEventRec,
      evs.foldl (fun st ev => agentOnLogEvent st (ser ev) createdAt) a = a := by
    intro evs
    induction evs with
    | nil => rfl
    | cons ev t ih =>
      rw [List.foldl_cons, hlog (ser ev) createdAt]
      exact ih
  have h1 : (agentHandleModify a h filePath (some content) ser createdAt).1 = a := by
    unfold agentHandleModify
    exact hfoldEv _
  have hpos : (onModified h filePath (some content)).1.positions
      = posSet h.positions filePath content.length := by
    unfold onModified processFile
    simp only [hm, Bool.not_true, Bool.false_eq_true, if_false]
    rfl
  refine ⟨h1, by rw [h1], ?_, ?_, ?_⟩
  · have h2 : (agentHandleModify a h filePath (some content) ser createdAt).2
        = (onModified h filePath (some content)).1 := rfl
    rw [h2, hpos]
    exact lookup_posSet_self _ _ _
  · intro ds
    induction ds with
    | nil => rfl
    | cons dc t ih =>
      rw [List.foldl_cons, hlog dc.1 dc.2]
      exact ih
  · intro ds
    induction ds with
    | nil => rfl
    | cons dc t ih =>
      rw [List.foldl_cons, hfim dc.1 dc.2]
      exact ih

theorem pause_gate_no_enqueue_witness :
    (agentHandleModify ⟨true, Buffer.empty⟩ ⟨"*.log", []⟩ "/w/a.log"
        (some ("hi\n".data)) (fun ev => String.mk ev.message) "t").1
      = ⟨true, Buffer.empty⟩
    ∧ bufCount ((agentHandleModify ⟨true, Buffer.empty⟩ ⟨"*.log", []⟩ "/w/a.log"
          (some ("hi\n".data)) (fun ev => String.mk ev.message) "t").1.buffer)
        = bufCount (Buffer.empty)
    ∧ ((agentHandleModify ⟨true, Buffer.empty⟩ ⟨"*.log", []⟩ "/w/a.log"
          (some ("hi\n".data)) (fun ev => String.mk ev.message)
          "t").2).positions.lookup "/w/a.log"
        = some ("hi\n".data).length
    ∧ (∀ ds : List (String × String),
        ds.foldl (fun st dc => agentOnLogEvent st dc.1 dc.2)
          ⟨true, Buffer.empty⟩ = ⟨true, Buffer.empty⟩)
    ∧ (∀ ds : List (String × String),
        ds.foldl (fun st dc => agentOnFimEvent st dc.1 dc.2)
          ⟨true, Buffer.empty⟩ = ⟨true, Buffer.empty⟩) :=
  pause_gate_no_enqueue ⟨true, Buffer.empty⟩ ⟨"*.log", []⟩ "/w/a.log"
    ("hi\n".data) (fun ev => String.mk ev.message) "t" rfl (by decide)

end LogNog
